import Mathlib

/-
Verification of the liara static-site generator core (src/liara/__init__.py and
src/liara/template.py): path mapping, front-matter extraction, content
discovery, the query/filter/sort engine, template routing, and the build
pipeline.

Modelling conventions:
 - Paths and file names are lists of characters (`Chars`); a site-relative
   output path is its list of POSIX components (the leading root slash is
   implicit, `[]` denotes the root path itself).
 - Metadata mappings (the result of the external YAML decoder) are modelled as
   insertion-ordered association lists with string keys and string values; the
   claims only test keys for presence and values for equality.
 - External collaborators (the YAML decoder, the filesystem) are parameters
   bundled in `FSEnv`.
 - Python exceptions are modelled with `Except`.
-/

namespace Liara

abbrev Chars := List Char

abbrev Meta := List (String × String)

/-- Association-list lookup, modelling Python dict lookup and `in`. -/
def assocFind (k : String) : Meta → Option String
  | [] => none
  | (k2, v) :: rest => if k2 = k then some v else assocFind k rest

/-- Setting a key in a Python dict keeps an existing key at its original
position and appends a fresh key at the end. -/
def assocSet {κ α : Type} [DecidableEq κ] (k : κ) (v : α) : List (κ × α) → List (κ × α)
  | [] => [(k, v)]
  | (k2, v2) :: rest => if k2 = k then (k, v) :: rest else (k2, v2) :: assocSet k v rest

/-! ## The pathlib name operations used by liara

These model the CPython `PurePath` properties `suffix`, `stem`, `suffixes` and
the method `with_suffix`, applied to a single path component (a file or
directory name, which cannot contain a slash). -/

/-- Index of the last occurrence of a dot in a name, if any. -/
def lastDotIdx : Chars → Option Nat
  | [] => none
  | c :: rest =>
    match lastDotIdx rest with
    | some i => some (i + 1)
    | none => if c = '.' then some 0 else none

/-- CPython `PurePath.suffix`: the substring from the last dot, provided that
dot is neither the first nor the last character; `''` otherwise. -/
def pathSuffix (name : Chars) : Chars :=
  match lastDotIdx name with
  | some i => if 0 < i ∧ i < name.length - 1 then name.drop i else []
  | none => []

/-- CPython `PurePath.stem`: the name with `pathSuffix` removed. -/
def pathStem (name : Chars) : Chars :=
  match lastDotIdx name with
  | some i => if 0 < i ∧ i < name.length - 1 then name.take i else name
  | none => name

/-- Python `str.lstrip('.')`. -/
def dropLeadingDots : Chars → Chars
  | '.' :: rest => dropLeadingDots rest
  | cs => cs

/-- Python `str.split('.')` (the separator is a single dot). -/
def splitOnDotGo (cur : Chars) : Chars → List Chars
  | [] => [cur.reverse]
  | c :: rest =>
    if c = '.' then cur.reverse :: splitOnDotGo [] rest
    else splitOnDotGo (c :: cur) rest

def splitOnDot (cs : Chars) : List Chars := splitOnDotGo [] cs

/-- CPython `PurePath.suffixes`: `[]` for a name ending in a dot, otherwise
every dot-separated extension of the name after stripping leading dots. -/
def pathSuffixes (name : Chars) : List Chars :=
  if name.getLast? = some '.' then []
  else ((splitOnDot (dropLeadingDots name)).tail).map (fun s => '.' :: s)

/-- CPython `PurePath.with_suffix` restricted to one name component: replace
the current (single, final) suffix by `sfx`, or append `sfx` when the name has
no suffix.  (The source always passes either `''` or a string starting with a
dot and containing no slash, so the `ValueError` branches are unreachable.) -/
def pathWithSuffix (name sfx : Chars) : Chars :=
  let old := pathSuffix name
  if old = [] then name ++ sfx
  else name.take (name.length - old.length) ++ sfx

/-- The name transformation `discover_content` applies to Static files
(lines 440-450 and 460-462 of src/liara/__init__.py): `create_relative_path`
rewrites the final component to its `stem`, then `with_suffix` re-attaches the
full joined suffix chain `''.join(src.suffixes)`. -/
def staticOutputName (name : Chars) : Chars :=
  pathWithSuffix (pathStem name) (List.flatten (pathSuffixes name))

/-- Replace the final component of a component list. -/
def replaceLast (f : Chars → Chars) : List Chars → List Chars
  | [] => []
  | [x] => [f x]
  | x :: xs => x :: replaceLast f xs

/-- `create_relative_path(path, root)` from `Liara.discover_content`: the
argument is given as the component list of `path` relative to `root` (`[]`
when `path == root`, which the source special-cases to `/`).  The final
component is rewritten to its stem via `with_name(path.stem)`; the result is
anchored at `/` (implicit here). -/
def create_relative_path (relParts : List Chars) : List Chars :=
  replaceLast pathStem relParts

/-- `path.with_suffix(sfx)` on a component list: rewrites the final component. -/
def withSuffixLast (parts : List Chars) (sfx : Chars) : List Chars :=
  replaceLast (fun n => pathWithSuffix n sfx) parts

/-- `os.path.join(dirpath, filename)` for a dirpath with no trailing slash. -/
def pathJoin (dir name : Chars) : Chars := dir ++ '/' :: name

/-- Python `str.startswith`. -/
def startsWithChars : Chars → Chars → Bool
  | [], _ => true
  | _ :: _, [] => false
  | p :: ps, c :: cs => p = c && startsWithChars ps cs

def indexMarker : Chars := ("_index").toList

/-- `filename.startswith('_index')`. -/
def is_index_file (name : Chars) : Bool := startsWithChars indexMarker name

/-- Python `file.readlines()`: split text into lines, each keeping its
trailing newline; a final fragment without a newline is kept as-is. -/
def splitLinesGo (cur : Chars) : Chars → List Chars
  | [] => if cur = [] then [] else [cur.reverse]
  | c :: rest =>
    if c = '\n' then (c :: cur).reverse :: splitLinesGo [] rest
    else splitLinesGo (c :: cur) rest

def splitLinesKeep (cs : Chars) : List Chars := splitLinesGo [] cs

/-! ## Front-matter extraction -/

def delimLine : Chars := ("---\n").toList

/-- The state machine of `ExtractMetadataAndContent`: state 0 scans for the
opening `---` line, state 1 accumulates metadata until the closing `---`
line, state 2 accumulates content.  Mirrors the if/elif chain of the source. -/
def emcGo : Nat → Chars → Chars → List Chars → Chars × Chars
  | _, md, ct, [] => (md, ct)
  | state, md, ct, line :: rest =>
    if state = 0 ∧ line = delimLine then emcGo 1 md ct rest
    else if state = 1 ∧ line = delimLine then emcGo 2 md ct rest
    else if state = 1 ∧ line ≠ delimLine then emcGo 1 (md ++ line) ct rest
    else if state = 2 then emcGo state md (ct ++ line) rest
    else emcGo state md ct rest

/-- `ExtractMetadataAndContent(path)` from src/liara/__init__.py, modelled on
the list of raw lines read from the file (the source iterates
`open(path).readlines()`).  Returns the raw metadata buffer (handed to the
external YAML decoder by callers) and the content buffer. -/
def ExtractMetadataAndContent (lines : List Chars) : Chars × Chars :=
  emcGo 0 [] [] lines

/-! ## Node and Site model (value level)

This section models the node taxonomy and the `Site` container with value
semantics: every constructed node carries its metadata as a value.  The
Python-level aliasing of the class-attribute default containers (`Node.metadata`
and `Node.children` are evaluated once at class creation and shared by every
instance that never assigns an instance attribute) is modelled separately by
the explicit-heap section further down. -/

inductive NodeKind where
  | Resource
  | Index
  | Document
  | Data
  | Static
  | Internal
deriving DecidableEq

structure Node where
  kind : NodeKind
  src : Option Chars
  path : List Chars
  metadata : Meta
deriving DecidableEq

inductive PyErr where
  | typeErr
  | keyErr
deriving DecidableEq

/-- The external collaborators of Discovery: the filesystem contents and the
structured (YAML) decoder. -/
structure FSEnv where
  fileText : Chars → Chars
  loadYaml : Chars → Meta
  metaExists : Chars → Bool

/-- `DocumentNode.__init__`: front matter and raw body are extracted from the
source file at construction; the metadata buffer goes through `load_yaml`. -/
def DocumentNode_new (env : FSEnv) (src : Chars) (path : List Chars) : Node :=
  { kind := NodeKind.Document, src := some src, path := path,
    metadata := env.loadYaml (ExtractMetadataAndContent (splitLinesKeep (env.fileText src))).1 }

/-- `DataNode.__init__`: the whole file is decoded as YAML. -/
def DataNode_new (env : FSEnv) (src : Chars) (path : List Chars) : Node :=
  { kind := NodeKind.Data, src := some src, path := path,
    metadata := env.loadYaml (env.fileText src) }

def IndexNode_new (path : List Chars) : Node :=
  { kind := NodeKind.Index, src := none, path := path, metadata := [] }

def InternalNode_new (path : List Chars) : Node :=
  { kind := NodeKind.Internal, src := none, path := path, metadata := [] }

/-- The `Site` container: typed sub-collections in discovery order plus the
flat path-keyed node mapping (a Python dict, so registration is
last-writer-wins while keeping the original key position). -/
structure Site where
  data : List Node
  indices : List Node
  documents : List Node
  resources : List Node
  static : List Node
  internal : List Node
  nodes : List (List Chars × Node)
deriving DecidableEq

def emptySite : Site := ⟨[], [], [], [], [], [], []⟩

def register_node (s : Site) (n : Node) : Site :=
  { s with nodes := assocSet n.path n s.nodes }

def add_data (s : Site) (n : Node) : Site :=
  register_node { s with data := s.data ++ [n] } n

def add_index (s : Site) (n : Node) : Site :=
  register_node { s with indices := s.indices ++ [n] } n

def add_document (s : Site) (n : Node) : Site :=
  register_node { s with documents := s.documents ++ [n] } n

def add_resource (s : Site) (n : Node) : Site :=
  register_node { s with resources := s.resources ++ [n] } n

def add_static (s : Site) (n : Node) : Site :=
  register_node { s with static := s.static ++ [n] } n

def add_internal (s : Site) (n : Node) : Site :=
  register_node { s with internal := s.internal ++ [n] } n

/-- `Site.urls`: the registered output paths. -/
def urls (s : Site) : List (List Chars) := s.nodes.map (fun kv => kv.1)

/-! ## Discovery -/

/-- One directory visited by `os.walk`: the dirpath string as yielded by the
walk, its component list relative to the walk root (`[]` for the root
itself), and its direct file entries in walk order. -/
structure WalkDir where
  dirAbs : Chars
  dirRel : List Chars
  filenames : List Chars
deriving DecidableEq

def metaSfx : Chars := (".meta").toList
def mdSfx : Chars := (".md").toList
def yamlSfx : Chars := (".yaml").toList
def ymlSfx : Chars := (".yml").toList
def sassSfx : Chars := (".sass").toList
def scssSfx : Chars := (".scss").toList
def cssSfx : Chars := (".css").toList

/-- `src.with_suffix('.meta')`: the sidecar path probed for Static/Resource
metadata (note `with_suffix` replaces the final suffix of the file name). -/
def metaPathOf (d : WalkDir) (fname : Chars) : Chars :=
  pathJoin d.dirAbs (pathWithSuffix fname metaSfx)

/-- The Static node built for a walked file, used identically by the
content-root else-branch (lines 448-455) and the static-root walk (lines
458-469): relative path with the stem rewritten, then the full joined suffix
chain re-attached, with sidecar `.meta` metadata when that file exists. -/
def staticNodeFor (env : FSEnv) (d : WalkDir) (fname : Chars) : Node :=
  let src := pathJoin d.dirAbs fname
  let path := withSuffixLast (create_relative_path (d.dirRel ++ [fname]))
    (List.flatten (pathSuffixes fname))
  let mp := metaPathOf d fname
  { kind := NodeKind.Static, src := some src, path := path,
    metadata := if env.metaExists mp then env.loadYaml (env.fileText mp) else [] }

/-- The per-file body of the second loop of the content walk (lines 436-455).
Note the `.yaml` branch: the source constructs `DataNode(src, path)` but never
registers it — there is no `add_data` call — so the site is unchanged; and
`.yml` is not in the suffix set, so `.yml` files fall through to the Static
branch. -/
def contentFileStep (env : FSEnv) (d : WalkDir) (s : Site) (fname : Chars) : Site :=
  if is_index_file fname then s
  else
    let src := pathJoin d.dirAbs fname
    let path := create_relative_path (d.dirRel ++ [fname])
    if pathSuffix fname = mdSfx then add_document s (DocumentNode_new env src path)
    else if pathSuffix fname = yamlSfx then s
    else add_static s (staticNodeFor env d fname)

/-- One directory of the content walk: the first pass looks for an `_index*`
file (first match wins, then `break`), otherwise classifies the directory as
Index (more than one entry) or Internal; the second pass classifies the
files. -/
def processContentDir (env : FSEnv) (s : Site) (d : WalkDir) : Site :=
  let s1 :=
    match d.filenames.find? (fun f => is_index_file f) with
    | some f =>
      add_document s (DocumentNode_new env (pathJoin d.dirAbs f) (create_relative_path d.dirRel))
    | none =>
      if d.filenames.length > 1 then add_index s (IndexNode_new (create_relative_path d.dirRel))
      else add_internal s (InternalNode_new (create_relative_path d.dirRel))
  d.filenames.foldl (contentFileStep env d) s1

/-- One file of the static walk (lines 458-469): identical Static-node
construction, no directory classification. -/
def staticFileStep (env : FSEnv) (d : WalkDir) (s : Site) (fname : Chars) : Site :=
  add_static s (staticNodeFor env d fname)

def processStaticDir (env : FSEnv) (s : Site) (d : WalkDir) : Site :=
  d.filenames.foldl (staticFileStep env d) s

/-- `ResourceNodeFactory.create_node`: after `__init__` the registry
`__known_types` maps exactly `.sass` and `.scss` to `SassResourceNode`; any
other suffix raises `KeyError`.  `SassResourceNode` rewrites the output path
suffix to `.css`; its own suffix assertion is unreachable through the
factory. -/
def ResourceNodeFactory_create (env : FSEnv) (suffix : Chars) (src : Chars)
    (path : List Chars) (metaPath : Option Chars) : Except PyErr Node :=
  if suffix = sassSfx ∨ suffix = scssSfx then
    Except.ok
      { kind := NodeKind.Resource, src := some src,
        path := withSuffixLast path cssSfx,
        metadata :=
          match metaPath with
          | some mp => env.loadYaml (env.fileText mp)
          | none => [] }
  else Except.error PyErr.keyErr

/-- One file of the resource walk (lines 471-485). -/
def resourceFileStep (env : FSEnv) (d : WalkDir) (s : Site) (fname : Chars) :
    Except PyErr Site :=
  let src := pathJoin d.dirAbs fname
  let path := create_relative_path (d.dirRel ++ [fname])
  let mp := metaPathOf d fname
  (ResourceNodeFactory_create env (pathSuffix fname) src path
    (if env.metaExists mp then some mp else none)).map (fun n => add_resource s n)

def processResourceDir (env : FSEnv) (s : Site) (d : WalkDir) : Except PyErr Site :=
  d.filenames.foldlM (resourceFileStep env d) s

/-- `Liara.discover_content`, with the three `os.walk` traversals supplied as
inputs (the source derives them from the configured content, static and
resource roots; a missing root contributes an empty walk). -/
def discover_content (env : FSEnv) (contentWalk staticWalk resourceWalk : List WalkDir) :
    Except PyErr Site :=
  let s1 := contentWalk.foldl (processContentDir env) emptySite
  let s2 := staticWalk.foldl (processStaticDir env) s1
  resourceWalk.foldlM (processResourceDir env) s2

/-! ## Build pipeline

`Liara.build` (lines 493-536) as an effect trace over a discovered `Site`:
validation of every document runs first and raises on the first document
whose metadata lacks `'title'`; only afterwards are documents and resources
processed, templates rendered, files written and static sources symlinked.
The trace abstracts each of those later actions as one effect in program
order; a raised validation error stops the pipeline with an empty trace. -/

inductive BuildEffect where
  | processDoc (path : List Chars)
  | processResource (path : List Chars)
  | renderPage (path : List Chars)
  | writeOut (path : List Chars)
  | linkStatic (path : List Chars)
deriving DecidableEq

inductive BuildError where
  | validationError (src : Option Chars)
deriving DecidableEq

def titleKey : String := "title"

/-- `DocumentNode.validate_metadata`: `True` iff `'title'` is present. -/
def validate_metadata (n : Node) : Bool := (assocFind titleKey n.metadata).isSome

/-- The validation loop of `build`: the first document failing
`validate_metadata` raises. -/
def firstInvalidDoc : List Node → Option Node
  | [] => none
  | d :: ds => if validate_metadata d then firstInvalidDoc ds else some d

/-- The effects of the post-validation stages of `build`, in program order:
`pool.map(process_content, documents)`, the resource `process_content` loop,
the render-and-write loop over documents and indices, the resource write
loop, and the static symlink loop. -/
def buildEffects (s : Site) : List BuildEffect :=
  s.documents.map (fun d => BuildEffect.processDoc d.path)
    ++ s.resources.map (fun r => BuildEffect.processResource r.path)
    ++ (s.documents ++ s.indices).map (fun n => BuildEffect.renderPage n.path)
    ++ s.resources.map (fun r => BuildEffect.writeOut r.path)
    ++ s.static.map (fun n => BuildEffect.linkStatic n.path)

def buildTrace (s : Site) : List BuildEffect × Option BuildError :=
  match firstInvalidDoc s.documents with
  | some d => ([], some (BuildError.validationError d.src))
  | none => (buildEffects s, none)

/-! ## Explicit-heap model of Python attribute semantics

In the source, the class body of `Node` contains `metadata: Dict[str, Any] =
{}` and `children: List['Node'] = []` (lines 49-50).  CPython evaluates those
two container literals once, at class-creation time, and stores them as class
attributes.  An instance that never assigns `self.metadata` (a `StaticNode`
or `ResourceNode` constructed without a `metadata_path`) resolves
`self.metadata` to that single shared dict, and `add_child`'s
`self.children.append(...)` always mutates the single shared list, since no
constructor ever assigns an instance-level `children`.  The heap below makes
those references explicit. -/

structure PyHeap where
  dicts : Nat → Meta
  lists : Nat → List Nat
  next : Nat

/-- Reference to the dict created by the `Node` class body for `metadata`. -/
def nodeClassMetaRef : Nat := 0

/-- Reference to the list created by the `Node` class body for `children`. -/
def nodeClassChildrenRef : Nat := 1

def initialHeap : PyHeap := ⟨fun _ => [], fun _ => [], 2⟩

/-- A Python `Node` object: its identity, kind, the suffix of its `src` path
(what `update_metadata` inspects), and the heap references its attribute
lookups resolve to. -/
structure NodeObj where
  nodeId : Nat
  kind : NodeKind
  srcSuffix : String
  metadataRef : Nat
  childrenRef : Nat
deriving DecidableEq

def writeDict (h : PyHeap) (r : Nat) (m : Meta) : PyHeap :=
  { h with dicts := fun r2 => if r2 = r then m else h.dicts r2 }

def allocDict (h : PyHeap) (m : Meta) : Nat × PyHeap :=
  (h.next, { writeDict h h.next m with next := h.next + 1 })

/-- `StaticNode.__init__`: with a `metadata_path`, `self.metadata =
load_yaml(...)` binds an instance attribute to a freshly decoded dict;
without one, the instance keeps resolving `metadata` to the shared class
dict.  `children` is never assigned, so it always resolves to the shared
class list. -/
def StaticNode_new (h : PyHeap) (srcSuffix : String) (sidecar : Option Meta) :
    NodeObj × PyHeap :=
  let oid := h.next
  let h1 : PyHeap := { h with next := h.next + 1 }
  match sidecar with
  | none => (⟨oid, NodeKind.Static, srcSuffix, nodeClassMetaRef, nodeClassChildrenRef⟩, h1)
  | some m =>
    let rh := allocDict h1 m
    (⟨oid, NodeKind.Static, srcSuffix, rh.1, nodeClassChildrenRef⟩, rh.2)

def jpgSfxS : String := ".jpg"
def pngSfxS : String := ".png"
def imageSizeKey : String := "image_size"

/-- `StaticNode.update_metadata`: for `.jpg`/`.png` sources, reads the image
size (external collaborator, passed in) and `self.metadata.update({...})`
mutates whichever dict `self.metadata` resolves to. -/
def update_metadata (h : PyHeap) (n : NodeObj) (imageSize : String) : PyHeap :=
  if n.srcSuffix = jpgSfxS ∨ n.srcSuffix = pngSfxS then
    writeDict h n.metadataRef (assocSet imageSizeKey imageSize (h.dicts n.metadataRef))
  else h

/-- `Node.add_child`: appends to the list `self.children` resolves to.  (The
`child.parent = self` assignment creates a per-instance attribute and is not
modelled.) -/
def add_child (h : PyHeap) (parent child : NodeObj) : PyHeap :=
  { h with
    lists := fun r =>
      if r = parent.childrenRef then h.lists parent.childrenRef ++ [child.nodeId]
      else h.lists r }

def readMetadata (h : PyHeap) (n : NodeObj) : Meta := h.dicts n.metadataRef

def readChildren (h : PyHeap) (n : NodeObj) : List Nat := h.lists n.childrenRef

/-! ## Query/filter/sort engine

The class body of `Query` (lines 101-104) likewise evaluates `__filters = []`,
`__nodes = []` and `__sorters = []` once; `__init__` assigns only
`self.__nodes`, so `__filters` and `__sorters` stay class attributes shared by
every `Query` instance, and `with_tag`/`sorted_by_*` mutate that shared state.
`QuerySharedState` is that shared class state; a `Query` instance contributes
only its node list. -/

inductive QFilter where
  | tag (name : String) (value : Option String)
deriving DecidableEq

inductive QSorter where
  | title
  | tag (t : String)
deriving DecidableEq

structure QuerySharedState where
  filters : List QFilter
  sorters : List QSorter
deriving DecidableEq

/-- The state of the `Query` class attributes at class-creation time. -/
def queryInitState : QuerySharedState := ⟨[], []⟩

def with_tag (st : QuerySharedState) (name : String) (value : Option String) :
    QuerySharedState :=
  { st with filters := st.filters ++ [QFilter.tag name value] }

def sorted_by_title (st : QuerySharedState) : QuerySharedState :=
  { st with sorters := st.sorters ++ [QSorter.title] }

def sorted_by_tag (st : QuerySharedState) (tag : String) : QuerySharedState :=
  { st with sorters := st.sorters ++ [QSorter.tag tag] }

/-- A node as seen by the query engine. -/
structure QNode where
  path : Chars
  metadata : Meta
deriving DecidableEq

/-- The `Page` projection: `url` and `meta` (the `content` field is untouched
by the claims). -/
structure QPage where
  url : Chars
  meta : Meta
deriving DecidableEq

def Page_of (n : QNode) : QPage := ⟨n.path, n.metadata⟩

/-- `TagFilter.match`. -/
def filter_match (f : QFilter) (n : QNode) : Bool :=
  match f with
  | QFilter.tag name value =>
    match assocFind name n.metadata with
    | none => false
    | some v =>
      match value with
      | none => true
      | some w => v = w

/-- `Sorter.get_key` on the Page projection.  `TitleSorter` evaluates
`item.meta['title']`, a `KeyError` when absent.  `TagSorter` evaluates
`item.meta.get[self.__tag]`: `get` without parentheses is the bound method
object, and subscripting it raises `TypeError` unconditionally. -/
def get_key (s : QSorter) (p : QPage) : Except PyErr String :=
  match s with
  | QSorter.title =>
    match assocFind titleKey p.meta with
    | some v => Except.ok v
    | none => Except.error PyErr.keyErr
  | QSorter.tag _ => Except.error PyErr.typeErr

/-- Stable insertion: `x` is placed before the first element `y` with
`le x y`; processing the original list right-to-left with `isortBy` yields the
unique stable sort for the strict order underlying `le`, which is the list
CPython's stable `sorted` produces for the same comparator. -/
def insertBy {α : Type} (le : α → α → Bool) (x : α) : List α → List α
  | [] => [x]
  | y :: ys => if le x y then x :: y :: ys else y :: insertBy le x ys

def isortBy {α : Type} (le : α → α → Bool) : List α → List α
  | [] => []
  | x :: xs => insertBy le x (isortBy le xs)

/-- Python tuple comparison on equal-length key tuples of strings. -/
def tupLe : List String → List String → Bool
  | [], _ => true
  | _ :: _, [] => false
  | a :: as2, b :: bs =>
    if a < b then true
    else if b < a then false
    else tupLe as2 bs

/-- `Query.__iter__`.  Two faithfulness notes: (1) the loop
`nodes = filter(lambda x: f.match(x), nodes)` builds lazy stages whose lambdas
all close over the loop variable `f`, so by the time anything is consumed
every stage tests the **last** registered filter; (2) `sorted(result,
key=get_key)` computes the key tuple for each page in order (first failure
raises) and then sorts stably ascending. -/
def query_iter (st : QuerySharedState) (nodes : List QNode) : Except PyErr (List QPage) :=
  let filtered :=
    match st.filters.getLast? with
    | none => nodes
    | some f => st.filters.foldl (fun ns _ => ns.filter (filter_match f)) nodes
  let pages := filtered.map Page_of
  if st.sorters.isEmpty then Except.ok pages
  else do
    let keyed ← pages.mapM (fun p => do
      let ks ← st.sorters.mapM (fun s => get_key s p)
      pure (ks, p))
    pure ((isortBy (fun a b => tupLe a.1 b.1) keyed).map (fun kp => kp.2))

/-! ## Template routing (src/liara/template.py)

`TemplateRepository._match_template` evaluates the URL against every route
pattern with `fnmatch.fnmatch`, collects `(len(pattern), template)` pairs in
route-declaration order (a Python 3.7+ dict iterates in insertion order),
stable-sorts them descending by length (`sorted` with `reverse=True` keeps
equal elements in their original order) and returns the first entry's
template; `matches[0]` raises `IndexError` when nothing matched, modelled by
`none`.

The glob matcher below models CPython `fnmatch.translate` semantics on POSIX
(`os.path.normcase` is the identity there): `*` matches any sequence
(including separators and newlines), `?` any single character, `[...]` a
character class with `!` negation and `a-b` ranges, an unmatched `[` is a
literal, and the whole pattern must match the whole name.  The recursions are
driven by a fuel argument only to stay structurally recursive (so concrete
instances reduce); the supplied fuel strictly exceeds the maximal recursion
depth, so the exhaustion branches are unreachable. -/

inductive GTok where
  | lit (c : Char)
  | any
  | star
  | cls (neg : Bool) (items : Chars)
deriving DecidableEq

/-- Split at the first `]`, returning the part before and the part after. -/
def splitAtRB : Chars → Option (Chars × Chars)
  | [] => none
  | ']' :: rest => some ([], rest)
  | c :: rest => (splitAtRB rest).map (fun ab => (c :: ab.1, ab.2))

/-- The class scan of `fnmatch.translate`: after `[`, an initial `!` and an
initial `]` are part of the class body; the class ends at the next `]`.
Returns the raw class body (still holding a leading `!` if present) and the
remaining pattern, or `none` when no closing `]` exists. -/
def readCls : Chars → Option (Chars × Chars)
  | '!' :: ']' :: rest => (splitAtRB rest).map (fun ab => ('!' :: ']' :: ab.1, ab.2))
  | '!' :: rest => (splitAtRB rest).map (fun ab => ('!' :: ab.1, ab.2))
  | ']' :: rest => (splitAtRB rest).map (fun ab => (']' :: ab.1, ab.2))
  | rest => splitAtRB rest

/-- Tokenize a glob pattern.  Fuel bounds the recursion depth; any fuel above
the pattern length is enough since every step consumes at least one
character. -/
def tokenizeGo : Nat → Chars → List GTok
  | 0, _ => []
  | _ + 1, [] => []
  | n + 1, '*' :: rest => GTok.star :: tokenizeGo n rest
  | n + 1, '?' :: rest => GTok.any :: tokenizeGo n rest
  | n + 1, '[' :: rest =>
    (match readCls rest with
     | none => GTok.lit '[' :: tokenizeGo n rest
     | some sr =>
       (match sr.1 with
        | '!' :: body => GTok.cls true body :: tokenizeGo n sr.2
        | body => GTok.cls false body :: tokenizeGo n sr.2))
  | n + 1, c :: rest => GTok.lit c :: tokenizeGo n rest

def tokenizePat (pat : Chars) : List GTok := tokenizeGo (pat.length + 1) pat

/-- Membership in a character class body: `a-b` denotes a range (a trailing
or leading `-` is a literal), anything else a literal character. -/
def clsContains : Chars → Char → Bool
  | [], _ => false
  | a :: '-' :: b :: rest, c =>
    (decide (a ≤ c) && decide (c ≤ b)) || clsContains rest c
  | a :: rest, c => a = c || clsContains rest c

/-- Whole-string glob matching.  Fuel bounds the recursion depth; every call
shrinks the token list or the string, so any fuel above their combined length
is enough. -/
def globMatch : Nat → List GTok → Chars → Bool
  | 0, _, _ => false
  | _ + 1, [], s => s.isEmpty
  | n + 1, GTok.star :: ts, [] => globMatch n ts []
  | n + 1, GTok.star :: ts, c :: cs =>
    globMatch n ts (c :: cs) || globMatch n (GTok.star :: ts) cs
  | _ + 1, GTok.any :: _, [] => false
  | n + 1, GTok.any :: ts, _ :: cs => globMatch n ts cs
  | _ + 1, GTok.lit _ :: _, [] => false
  | n + 1, GTok.lit a :: ts, c :: cs => a = c && globMatch n ts cs
  | _ + 1, GTok.cls _ _ :: _, [] => false
  | n + 1, GTok.cls neg items :: ts, c :: cs =>
    (if neg then !clsContains items c else clsContains items c) && globMatch n ts cs

/-- `fnmatch.fnmatch(name, pat)` on POSIX. -/
def fnmatch (name pat : Chars) : Bool :=
  let ts := tokenizePat pat
  globMatch (ts.length + name.length + 1) ts name

/-- The `(len(pattern), template)` match list of `_match_template`, in route
declaration order. -/
def matchesOf (routes : List (Chars × Chars)) (url : Chars) : List (Nat × Chars) :=
  (routes.filter (fun pr => fnmatch url pr.1)).map (fun pr => (pr.1.length, pr.2))

/-- Descending-by-length comparison used by `sorted(..., key=lambda x: x[0],
reverse=True)`: an earlier element stays in front of a later one unless the
later one is strictly longer. -/
def mtLE {α : Type} (a b : Nat × α) : Bool := Nat.ble b.1 a.1

/-- The first element attaining the maximal key: a later element displaces an
earlier one only when strictly larger. -/
def firstMax {α : Type} : List (Nat × α) → Option (Nat × α)
  | [] => none
  | x :: xs =>
    match firstMax xs with
    | none => some x
    | some m => if x.1 < m.1 then some m else some x

/-- `TemplateRepository._match_template`: `none` models the `IndexError`
raised by `matches[0]` when no pattern matches. -/
def match_template (routes : List (Chars × Chars)) (url : Chars) : Option Chars :=
  ((isortBy mtLE (matchesOf routes url)).head?).map (fun m => m.2)

/-! ## Concrete fixtures used by the claim instances -/

/-- A filesystem environment in which every file is empty, every YAML decode
yields the empty mapping, and no sidecar `.meta` file exists. -/
def testEnv : FSEnv := ⟨fun _ => [], fun _ => [], fun _ => false⟩

/-- A content root holding `a.yaml` and `c.yml` directly at the root. -/
def yamlWalk : List WalkDir :=
  [⟨("content").toList, [], [("a.yaml").toList, ("c.yml").toList]⟩]

/-- A content root holding two plain binary files at the root. -/
def binWalk : List WalkDir :=
  [⟨("content").toList, [], [("foo.bin").toList, ("goo.bin").toList]⟩]

def binName : Chars := ("foo.bin").toList

def walkWdir : WalkDir := ⟨("content").toList, [], [binName, ("bar.md").toList]⟩

def walkW : List WalkDir := [walkWdir]

/-- A Document discovered without a `title` metadata key. -/
def docNoTitle : Node :=
  ⟨NodeKind.Document, some (("content/d.md").toList), [("d").toList], []⟩

def siteMissingTitle : Site := { emptySite with documents := [docNoTitle] }

def txtSfxS : String := ".txt"

def c5size : String := "64x64"

/-- Two StaticNodes built without a sidecar, an image-size update through the
first one, then a child added to the first one. -/
def c5s1h : NodeObj × PyHeap := StaticNode_new initialHeap jpgSfxS none

def c5s2h : NodeObj × PyHeap := StaticNode_new c5s1h.2 pngSfxS none

def c5h3 : PyHeap := update_metadata c5s2h.2 c5s1h.1 c5size

def c5childh : NodeObj × PyHeap := StaticNode_new c5h3 txtSfxS none

def c5h5 : PyHeap := add_child c5childh.2 c5s1h.1 c5childh.1

def draftKey : String := "draft"

def xKey : String := "x"

def c6node : QNode := ⟨("b").toList, [("title", "B")]⟩

def c7node : QNode := ⟨("n").toList, [(xKey, "1"), ("title", "T")]⟩

/-- The route mapping of the spec's tie-break example, in declaration order. -/
def blogRoutes : List (Chars × Chars) :=
  [(("/blog/*").toList, ("post").toList), (("/blog/index").toList, ("bloghome").toList)]

def blogIndexUrl : Chars := ("/blog/index").toList

/-- Routes around an equal-length tie: `/a/*x` and `/a/x*` both match `/a/x`
with length 5; `/a*` also matches but is shorter. -/
def tieR1 : List (Chars × Chars) := [(("/a*").toList, ("t0").toList)]

def tieR2 : List (Chars × Chars) := [(("/a/x*").toList, ("t2").toList)]

def tiePat : Chars := ("/a/*x").toList

def tieTpl : Chars := ("t1").toList

def tieUrl : Chars := ("/a/x").toList

/-! ## Helper lemmas -/

theorem emcGo_no_delim (lines : List Chars) (h : ∀ l ∈ lines, l ≠ delimLine)
    (md ct : Chars) : emcGo 0 md ct lines = (md, ct) := by
  induction lines generalizing md ct with
  | nil => rfl
  | cons line rest ih =>
    have hl : line ≠ delimLine := h line (by simp)
    have hr : ∀ l ∈ rest, l ≠ delimLine := fun l hm => h l (by simp [hm])
    simp [emcGo, hl]
    exact ih hr md ct

theorem firstInvalidDoc_of_missing (ds : List Node)
    (h : ∃ d ∈ ds, assocFind titleKey d.metadata = none) :
    ∃ d2, firstInvalidDoc ds = some d2 := by
  induction ds with
  | nil => obtain ⟨d, hd, _⟩ := h; cases hd
  | cons x xs ih =>
    by_cases hx : validate_metadata x
    · obtain ⟨d, hd, hnone⟩ := h
      rcases List.mem_cons.mp hd with rfl | hmem
      · exfalso
        unfold validate_metadata at hx
        rw [hnone] at hx
        simp at hx
      · obtain ⟨d2, hd2⟩ := ih ⟨d, hmem, hnone⟩
        exact ⟨d2, by simp [firstInvalidDoc, hx, hd2]⟩
    · exact ⟨x, by simp [firstInvalidDoc, hx]⟩

theorem insertBy_ne_nil {α : Type} (le : α → α → Bool) (x : α) (l : List α) :
    insertBy le x l ≠ [] := by
  cases l with
  | nil => simp [insertBy]
  | cons y ys =>
    unfold insertBy
    split <;> simp

theorem isortBy_eq_nil_iff {α : Type} (le : α → α → Bool) (l : List α) :
    isortBy le l = [] ↔ l = [] := by
  cases l with
  | nil => simp [isortBy]
  | cons x xs =>
    simp only [isortBy]
    constructor
    · intro h
      exact absurd h (insertBy_ne_nil le x (isortBy le xs))
    · intro h
      cases h

/-- The head of the stable descending sort is the first element attaining the
maximal key. -/
theorem isortBy_head_firstMax {α : Type} (l : List (Nat × α)) :
    (isortBy mtLE l).head? = firstMax l := by
  induction l with
  | nil => rfl
  | cons x xs ih =>
    rw [isortBy]
    cases hsx : isortBy mtLE xs with
    | nil =>
      have hx : xs = [] := (isortBy_eq_nil_iff _ _).mp hsx
      subst hx
      rfl
    | cons y ys =>
      have hy : firstMax xs = some y := by
        rw [← ih, hsx]
        rfl
      simp only [firstMax, hy]
      by_cases hlt : x.1 < y.1
      · have hle : mtLE x y = false := by
          simp only [mtLE, Bool.eq_false_iff, ne_eq, Nat.ble_eq]
          omega
        simp [insertBy, hle, hlt]
      · have hle : mtLE x y = true := by
          simp only [mtLE, Nat.ble_eq]
          omega
        simp [insertBy, hle, hlt]

theorem firstMax_eq_none {α : Type} (l : List (Nat × α)) :
    firstMax l = none ↔ l = [] := by
  cases l with
  | nil => simp [firstMax]
  | cons x xs =>
    constructor
    · intro h
      exfalso
      cases hx : firstMax xs with
      | none =>
        simp only [firstMax, hx] at h
        exact Option.noConfusion h
      | some k =>
        simp only [firstMax, hx] at h
        split at h <;> exact Option.noConfusion h
    · intro h
      cases h

theorem firstMax_mem_le {α : Type} (l : List (Nat × α)) (m : Nat × α)
    (h : firstMax l = some m) : m ∈ l ∧ ∀ y ∈ l, y.1 ≤ m.1 := by
  induction l generalizing m with
  | nil => cases h
  | cons x xs ih =>
    cases hx : firstMax xs with
    | none =>
      simp only [firstMax, hx] at h
      cases h
      exact ⟨List.mem_cons_self x xs, by
        intro y hy
        rcases List.mem_cons.mp hy with rfl | hmem
        · exact Nat.le_refl _
        · exact absurd hmem (by simp [(firstMax_eq_none xs).mp hx])⟩
    | some k =>
      simp only [firstMax, hx] at h
      obtain ⟨hkmem, hkbound⟩ := ih k hx
      by_cases hlt : x.1 < k.1
      · rw [if_pos hlt] at h
        cases h
        refine ⟨List.mem_cons_of_mem x hkmem, ?_⟩
        intro y hy
        rcases List.mem_cons.mp hy with rfl | hmem
        · exact Nat.le_of_lt hlt
        · exact hkbound y hmem
      · rw [if_neg hlt] at h
        cases h
        refine ⟨List.mem_cons_self x xs, ?_⟩
        intro y hy
        rcases List.mem_cons.mp hy with rfl | hmem
        · exact Nat.le_refl _
        · exact Nat.le_trans (hkbound y hmem) (Nat.le_of_not_lt hlt)

theorem firstMax_append {α : Type} (l1 : List (Nat × α)) (m : Nat × α)
    (l2 : List (Nat × α)) (h1 : ∀ y ∈ l1, y.1 < m.1) (h2 : ∀ y ∈ l2, y.1 ≤ m.1) :
    firstMax (l1 ++ m :: l2) = some m := by
  induction l1 with
  | nil =>
    simp only [List.nil_append]
    cases hx : firstMax l2 with
    | none => simp only [firstMax, hx]
    | some k =>
      have hk := (firstMax_mem_le l2 k hx).1
      have hnlt : ¬ m.1 < k.1 := Nat.not_lt.mpr (h2 k hk)
      simp only [firstMax, hx, if_neg hnlt]
  | cons x l1' ih =>
    have hx : x.1 < m.1 := h1 x (by simp)
    have ih2 := ih (fun y hy => h1 y (by simp [hy]))
    simp only [List.cons_append, firstMax, List.append_eq, ih2, if_pos hx]

theorem add_document_static (s : Site) (n : Node) : (add_document s n).static = s.static := rfl

theorem add_index_static (s : Site) (n : Node) : (add_index s n).static = s.static := rfl

theorem add_internal_static (s : Site) (n : Node) : (add_internal s n).static = s.static := rfl

theorem add_resource_static (s : Site) (n : Node) : (add_resource s n).static = s.static := rfl

theorem add_static_static (s : Site) (n : Node) :
    (add_static s n).static = s.static ++ [n] := rfl

/-- A content-walk file step either leaves the static collection unchanged or
appends exactly the Static node for that file. -/
theorem contentFileStep_static (env : FSEnv) (d : WalkDir) (s : Site) (f : Chars) :
    (contentFileStep env d s f).static = s.static ∨
    (contentFileStep env d s f).static = s.static ++ [staticNodeFor env d f] := by
  by_cases h1 : is_index_file f
  · left
    simp [contentFileStep, h1]
  · by_cases h2 : pathSuffix f = mdSfx
    · left
      simp [contentFileStep, h1, h2, add_document_static]
    · by_cases h3 : pathSuffix f = yamlSfx
      · left
        have hym : yamlSfx ≠ mdSfx := by decide
        simp [contentFileStep, h1, h2, h3, hym]
      · right
        simp [contentFileStep, h1, h2, h3, add_static_static]

/-- When the file qualifies for the Static branch, the step appends its node. -/
theorem contentFileStep_adds (env : FSEnv) (d : WalkDir) (s : Site) (f : Chars)
    (h1 : is_index_file f = false) (h2 : pathSuffix f ≠ mdSfx)
    (h3 : pathSuffix f ≠ yamlSfx) :
    (contentFileStep env d s f).static = s.static ++ [staticNodeFor env d f] := by
  simp [contentFileStep, h1, h2, h3, add_static_static]

theorem static_mem_foldl_content (env : FSEnv) (d : WalkDir) (l : List Chars)
    (s : Site) (n : Node) (h : n ∈ s.static) :
    n ∈ (l.foldl (contentFileStep env d) s).static := by
  induction l generalizing s with
  | nil => exact h
  | cons f fs ih =>
    apply ih
    rcases contentFileStep_static env d s f with heq | heq
    · rw [heq]; exact h
    · rw [heq]; exact List.mem_append_left _ h

theorem static_mem_foldl_content_adds (env : FSEnv) (d : WalkDir) (l : List Chars)
    (f : Chars) (h1 : is_index_file f = false) (h2 : pathSuffix f ≠ mdSfx)
    (h3 : pathSuffix f ≠ yamlSfx) :
    ∀ s : Site, f ∈ l → staticNodeFor env d f ∈ (l.foldl (contentFileStep env d) s).static := by
  induction l with
  | nil =>
    intro s hf
    cases hf
  | cons g gs ih =>
    intro s hf
    rcases List.mem_cons.mp hf with rfl | hmem
    · rw [List.foldl_cons]
      apply static_mem_foldl_content
      rw [contentFileStep_adds env d s f h1 h2 h3]
      exact List.mem_append_right _ (by simp)
    · exact ih _ hmem

theorem static_mem_processContentDir (env : FSEnv) (s : Site) (d : WalkDir)
    (n : Node) (h : n ∈ s.static) : n ∈ (processContentDir env s d).static := by
  unfold processContentDir
  apply static_mem_foldl_content
  cases hfind : d.filenames.find? (fun f => is_index_file f) with
  | some f => simpa [hfind, add_document_static] using h
  | none =>
    by_cases hlen : d.filenames.length > 1
    · simpa [hfind, hlen, add_index_static] using h
    · simpa [hfind, hlen, add_internal_static] using h

theorem processContentDir_adds (env : FSEnv) (s : Site) (d : WalkDir) (f : Chars)
    (hf : f ∈ d.filenames) (h1 : is_index_file f = false)
    (h2 : pathSuffix f ≠ mdSfx) (h3 : pathSuffix f ≠ yamlSfx) :
    staticNodeFor env d f ∈ (processContentDir env s d).static := by
  unfold processContentDir
  exact static_mem_foldl_content_adds env d d.filenames f h1 h2 h3 _ hf

theorem static_mem_contentWalk (env : FSEnv) (cw : List WalkDir) (s : Site)
    (n : Node) (h : n ∈ s.static) :
    n ∈ (cw.foldl (processContentDir env) s).static := by
  induction cw generalizing s with
  | nil => exact h
  | cons d ds ih => exact ih _ (static_mem_processContentDir env s d n h)

theorem contentWalk_adds (env : FSEnv) (cw : List WalkDir) (d : WalkDir)
    (f : Chars) (hf : f ∈ d.filenames) (h1 : is_index_file f = false)
    (h2 : pathSuffix f ≠ mdSfx) (h3 : pathSuffix f ≠ yamlSfx) :
    ∀ s : Site, d ∈ cw →
      staticNodeFor env d f ∈ (cw.foldl (processContentDir env) s).static := by
  induction cw with
  | nil =>
    intro s hd
    cases hd
  | cons d2 ds ih =>
    intro s hd
    rcases List.mem_cons.mp hd with rfl | hmem
    · exact static_mem_contentWalk env ds _ _ (processContentDir_adds env s d f hf h1 h2 h3)
    · exact ih _ hmem

theorem static_mem_staticWalk (env : FSEnv) (sw : List WalkDir) (s : Site)
    (n : Node) (h : n ∈ s.static) :
    n ∈ (sw.foldl (processStaticDir env) s).static := by
  induction sw generalizing s with
  | nil => exact h
  | cons d ds ih =>
    apply ih
    unfold processStaticDir
    have hstep : ∀ (l : List Chars) (s2 : Site), n ∈ s2.static →
        n ∈ (l.foldl (staticFileStep env d) s2).static := by
      intro l
      induction l with
      | nil => intro s2 hs2; exact hs2
      | cons f fs ihf =>
        intro s2 hs2
        exact ihf _ (by simp [staticFileStep, add_static_static, hs2])
    exact hstep d.filenames s h

theorem except_ok_bind {ε α β : Type} (a : α) (f : α → Except ε β) :
    (Except.ok a >>= f) = f a := rfl

theorem except_error_bind {ε α β : Type} (e : ε) (f : α → Except ε β) :
    ((Except.error e : Except ε α) >>= f) = Except.error e := rfl

theorem resourceFileStep_static (env : FSEnv) (d : WalkDir) (s : Site) (f : Chars)
    (s2 : Site) (h : resourceFileStep env d s f = Except.ok s2) :
    s2.static = s.static := by
  simp only [resourceFileStep] at h
  cases hr : ResourceNodeFactory_create env (pathSuffix f) (pathJoin d.dirAbs f)
      (create_relative_path (d.dirRel ++ [f]))
      (if env.metaExists (metaPathOf d f) then some (metaPathOf d f) else none) with
  | ok nd =>
    rw [hr] at h
    simp only [Except.map] at h
    cases h
    rfl
  | error e =>
    rw [hr] at h
    simp only [Except.map] at h
    exact Except.noConfusion h

theorem foldlM_resource_static (env : FSEnv) (d : WalkDir) (l : List Chars) :
    ∀ s s2 : Site, l.foldlM (resourceFileStep env d) s = Except.ok s2 →
      s2.static = s.static := by
  induction l with
  | nil =>
    intro s s2 h
    simp only [List.foldlM_nil] at h
    cases h
    rfl
  | cons f fs ih =>
    intro s s2 h
    rw [List.foldlM_cons] at h
    cases hstep : resourceFileStep env d s f with
    | error e =>
      rw [hstep, except_error_bind] at h
      exact Except.noConfusion h
    | ok s1 =>
      rw [hstep, except_ok_bind] at h
      rw [ih s1 s2 h]
      exact resourceFileStep_static env d s f s1 hstep

theorem processResourceDir_static (env : FSEnv) (d : WalkDir) (s s2 : Site)
    (h : processResourceDir env s d = Except.ok s2) : s2.static = s.static := by
  unfold processResourceDir at h
  exact foldlM_resource_static env d d.filenames s s2 h

theorem resourceWalk_static (env : FSEnv) (rw2 : List WalkDir) :
    ∀ s s2 : Site, rw2.foldlM (processResourceDir env) s = Except.ok s2 →
      s2.static = s.static := by
  induction rw2 with
  | nil =>
    intro s s2 h
    simp only [List.foldlM_nil] at h
    cases h
    rfl
  | cons d ds ih =>
    intro s s2 h
    rw [List.foldlM_cons] at h
    cases hstep : processResourceDir env s d with
    | error e =>
      rw [hstep, except_error_bind] at h
      exact Except.noConfusion h
    | ok s1 =>
      rw [hstep, except_ok_bind] at h
      rw [ih s1 s2 h]
      exact processResourceDir_static env d s s1 hstep

theorem mem_matchesOf_iff (routes : List (Chars × Chars)) (url : Chars)
    (y : Nat × Chars) :
    y ∈ matchesOf routes url ↔
      ∃ pr ∈ routes, fnmatch url pr.1 = true ∧ y = (pr.1.length, pr.2) := by
  simp only [matchesOf, List.mem_map, List.mem_filter]
  constructor
  · rintro ⟨pr, ⟨hmem, hfn⟩, rfl⟩
    exact ⟨pr, hmem, hfn, rfl⟩
  · rintro ⟨pr, hmem, hfn, rfl⟩
    exact ⟨pr, ⟨hmem, hfn⟩, rfl⟩

/-! ## Claim theorems -/

/-- C1: contrary to the claim, a `.yaml` file discovered in the content walk
is never registered: `DataNode(src, path)` is constructed but `add_data` is
never called, so `site.data` stays empty and the file's path appears neither
in the flat node collection nor in `urls`; a `.yml` file is not even treated
as Data but falls through to the Static branch.  Here the content root holds
`a.yaml` and `c.yml`: the result has no data nodes, no documents, one Static
node for `c.yml`, and the urls are only the root index `/` and `/c.yml`. -/
theorem c1_yaml_data_never_registered :
    (discover_content testEnv yamlWalk [] []).toOption.map
      (fun s => (s.data, s.documents.length, s.static.map (fun n => (n.kind, n.path)), urls s))
    = some ([], 0, [(NodeKind.Static, [("c.yml").toList])], [[], [("c.yml").toList]]) := rfl

/-- C2 counterexample: for a content root holding `foo.bin` and `goo.bin`
(neither `.md` nor `.yaml`/`.yml`, no `_index`), the claim requires Resource
nodes in the resources sub-collection, but discovery produces no Resource
node at all: both files become Static nodes. -/
theorem c2_counterexample :
    (discover_content testEnv binWalk [] []).toOption.map
      (fun s => (s.resources, s.static.map (fun n => n.kind)))
    = some ([], [NodeKind.Static, NodeKind.Static]) := rfl

/-- C2 (amended): for every file of the content-root walk whose suffix is
neither `.md` nor `.yaml`/`.yml` and whose name does not start with `_index`,
Discovery constructs a Static node (with the sidecar `.meta` metadata when
that file exists) and registers it via `add_static`, so the node has kind
Static and ends up in the tree's static sub-collection. -/
theorem c2_amended_static_node (env : FSEnv) (cw sw rw2 : List WalkDir)
    (site : Site) (d : WalkDir) (fname : Chars)
    (hok : discover_content env cw sw rw2 = Except.ok site)
    (hd : d ∈ cw) (hf : fname ∈ d.filenames)
    (hidx : is_index_file fname = false)
    (hmd : pathSuffix fname ≠ mdSfx)
    (hyaml : pathSuffix fname ≠ yamlSfx)
    (_hyml : pathSuffix fname ≠ ymlSfx) :
    staticNodeFor env d fname ∈ site.static ∧
    (staticNodeFor env d fname).kind = NodeKind.Static := by
  constructor
  · unfold discover_content at hok
    have h1 : staticNodeFor env d fname ∈
        (cw.foldl (processContentDir env) emptySite).static :=
      contentWalk_adds env cw d fname hf hidx hmd hyaml emptySite hd
    have h2 : staticNodeFor env d fname ∈
        (sw.foldl (processStaticDir env) (cw.foldl (processContentDir env) emptySite)).static :=
      static_mem_staticWalk env sw _ _ h1
    have h3 : site.static
        = (sw.foldl (processStaticDir env) (cw.foldl (processContentDir env) emptySite)).static :=
      resourceWalk_static env rw2 _ site hok
    rw [h3]
    exact h2
  · rfl

theorem c2_amended_witness :
    staticNodeFor testEnv walkWdir binName ∈
      ((discover_content testEnv walkW [] []).toOption.getD emptySite).static ∧
    (staticNodeFor testEnv walkWdir binName).kind = NodeKind.Static :=
  c2_amended_static_node testEnv walkW [] []
    ((discover_content testEnv walkW [] []).toOption.getD emptySite) walkWdir binName
    rfl (by decide) (by decide) (by decide) (by decide) (by decide) (by decide)

/-- C3 counterexample: for the input consisting of the single line
`hello\n` (no `---` delimiter anywhere), the claim requires the entire text
as body, but the extractor returns an empty body — lines seen while scanning
for the opening delimiter are discarded. -/
theorem c3_counterexample :
    (ExtractMetadataAndContent [("hello\n").toList]).2 ≠ ("hello\n").toList := by
  decide

/-- C3 (amended): for every input whose lines never equal the delimiter line
`---\n`, the extractor stays in state 0 throughout and returns an empty
metadata buffer and an empty body (the input lines are discarded, not kept
as body). -/
theorem c3_amended_no_delims (lines : List Chars) (h : ∀ l ∈ lines, l ≠ delimLine) :
    ExtractMetadataAndContent lines = ([], []) :=
  emcGo_no_delim lines h [] []

theorem c3_amended_witness :
    ExtractMetadataAndContent [("hello\n").toList] = ([], []) :=
  c3_amended_no_delims [("hello\n").toList] (by decide)

/-- C4: if any discovered Document lacks the `title` metadata key, the build
trace is empty — no document or resource is processed, no template is
rendered, no output file is written, and no static link is created — and the
pipeline stops with a validation error. -/
theorem c4_validate_fail_fast (site : Site)
    (h : ∃ d ∈ site.documents, assocFind titleKey d.metadata = none) :
    (buildTrace site).1 = [] ∧ ∃ e, (buildTrace site).2 = some e := by
  obtain ⟨d2, hd2⟩ := firstInvalidDoc_of_missing site.documents h
  unfold buildTrace
  rw [hd2]
  exact ⟨rfl, ⟨_, rfl⟩⟩

theorem c4_witness :
    (buildTrace siteMissingTitle).1 = [] ∧ ∃ e, (buildTrace siteMissingTitle).2 = some e :=
  c4_validate_fail_fast siteMissingTitle ⟨docNoTitle, by decide, rfl⟩

/-- C5: contrary to the claim, two distinct StaticNodes constructed without a
sidecar share the single class-level metadata dict and the single class-level
children list: before the mutation the second node's metadata is empty, but
`update_metadata` on the first node makes `image_size` appear in the second
node's metadata, and `add_child` on the first node makes the child appear in
the second node's children. -/
theorem c5_shared_default_containers :
    c5s1h.1.nodeId ≠ c5s2h.1.nodeId ∧
    readMetadata c5s2h.2 c5s2h.1 = [] ∧
    readMetadata c5h3 c5s2h.1 = [(imageSizeKey, c5size)] ∧
    readChildren c5childh.2 c5s2h.1 = [] ∧
    readChildren c5h5 c5s2h.1 = [c5childh.1.nodeId] :=
  ⟨by decide, rfl, rfl, rfl, rfl⟩

/-- C6: contrary to the claim, `__filters` is a class attribute shared by all
Query instances: iterating a query over a node without the `draft` key yields
its page under the pristine class state, but after `with_tag('draft')` has
been called on any (other) instance, a freshly constructed query over the
same node iterates to the empty result — registration on one instance
changed another instance's results. -/
theorem c6_query_state_shared :
    query_iter queryInitState [c6node] = Except.ok [Page_of c6node] ∧
    (with_tag queryInitState draftKey none).filters ≠ [] ∧
    query_iter (with_tag queryInitState draftKey none) [c6node] = Except.ok [] :=
  ⟨rfl, by decide, rfl⟩

/-- C7: contrary to the claim, iterating a query with a registered
`sorted_by_tag('x')` raises `TypeError` as soon as one node survives
filtering: `TagSorter.get_key` subscripts the bound method `meta.get`
instead of calling it. -/
theorem c7_tag_sorter_type_error :
    query_iter (sorted_by_tag queryInitState xKey) [c7node] = Except.error PyErr.typeErr :=
  rfl

/-- C9: the Static path mapping re-attaches the full joined suffix chain
`''.join(src.suffixes)` after the stem rewrite, so the produced name always
ends in the complete original suffix chain; in particular `a.tar.gz` keeps
`.tar.gz` intact (the whole name is reproduced), not merely `.gz`. -/
theorem c9_suffix_chain_preserved :
    (∀ name : Chars, ∃ pre : Chars,
        staticOutputName name = pre ++ List.flatten (pathSuffixes name)) ∧
    pathSuffixes (("a.tar.gz").toList) = [(".tar").toList, (".gz").toList] ∧
    staticOutputName (("a.tar.gz").toList) = ("a.tar.gz").toList := by
  refine ⟨fun name => ?_, by decide, by decide⟩
  unfold staticOutputName pathWithSuffix
  by_cases h : pathSuffix (pathStem name) = []
  · exact ⟨pathStem name, by simp [h]⟩
  · exact ⟨(pathStem name).take ((pathStem name).length - (pathSuffix (pathStem name)).length),
      by simp [h]⟩

/-- C8: whenever at least one route pattern matches the URL,
`_match_template` returns the template of a matching pattern of maximal
character length; in particular, with routes `/blog/*` → `post` and
`/blog/index` → `bloghome`, resolving `/blog/index` returns `bloghome`. -/
theorem c8_longest_pattern_wins :
    (∀ (routes : List (Chars × Chars)) (url : Chars),
        (∃ pr ∈ routes, fnmatch url pr.1 = true) →
        ∃ pr ∈ routes, fnmatch url pr.1 = true ∧
          match_template routes url = some pr.2 ∧
          ∀ qr ∈ routes, fnmatch url qr.1 = true → qr.1.length ≤ pr.1.length) ∧
    match_template blogRoutes blogIndexUrl = some (("bloghome").toList) := by
  constructor
  · intro routes url h
    obtain ⟨pr0, hpr0, hm0⟩ := h
    have hmem0 : (pr0.1.length, pr0.2) ∈ matchesOf routes url :=
      (mem_matchesOf_iff routes url _).mpr ⟨pr0, hpr0, hm0, rfl⟩
    cases hfm : firstMax (matchesOf routes url) with
    | none =>
      exfalso
      have : matchesOf routes url = [] := (firstMax_eq_none _).mp hfm
      rw [this] at hmem0
      cases hmem0
    | some m =>
      obtain ⟨hmmem, hbound⟩ := firstMax_mem_le _ m hfm
      obtain ⟨pr, hpr, hfn, hy⟩ := (mem_matchesOf_iff routes url m).mp hmmem
      refine ⟨pr, hpr, hfn, ?_, ?_⟩
      · unfold match_template
        rw [isortBy_head_firstMax, hfm, hy]
        rfl
      · intro qr hqr hq
        have hqmem : (qr.1.length, qr.2) ∈ matchesOf routes url :=
          (mem_matchesOf_iff routes url _).mpr ⟨qr, hqr, hq, rfl⟩
        have := hbound _ hqmem
        rw [hy] at this
        exact this
  · rfl

theorem c8_witness :
    ∃ pr ∈ blogRoutes, fnmatch blogIndexUrl pr.1 = true ∧
      match_template blogRoutes blogIndexUrl = some pr.2 ∧
      ∀ qr ∈ blogRoutes, fnmatch blogIndexUrl qr.1 = true →
        qr.1.length ≤ pr.1.length :=
  c8_longest_pattern_wins.1 blogRoutes blogIndexUrl
    ⟨((("/blog/index").toList), (("bloghome").toList)), by decide, by decide⟩

/-- C10: template resolution is a pure function of the routes and the URL
(hence deterministic), and among matching patterns of equal maximal length
the first-declared one wins.  If the routes split as `r1 ++ (p, t) :: r2`
where `p` matches, every earlier match (in `r1`) is strictly shorter and
every later match (in `r2`) is at most as long — i.e. `p` is the
first-declared pattern of maximal length — then the result is `p`'s
template, because Python's `sorted(..., reverse=True)` is stable. -/
theorem c10_first_declared_wins (r1 r2 : List (Chars × Chars)) (p t url : Chars)
    (hm : fnmatch url p = true)
    (h1 : ∀ q ∈ r1, fnmatch url q.1 = true → q.1.length < p.length)
    (h2 : ∀ q ∈ r2, fnmatch url q.1 = true → q.1.length ≤ p.length) :
    match_template (r1 ++ (p, t) :: r2) url = some t := by
  have hsplit : matchesOf (r1 ++ (p, t) :: r2) url
      = matchesOf r1 url ++ (p.length, t) :: matchesOf r2 url := by
    simp [matchesOf, List.filter_append, List.map_append, hm]
  have hb1 : ∀ y ∈ matchesOf r1 url, y.1 < (p.length, t).1 := by
    intro y hy
    obtain ⟨q, hq, hfn, rfl⟩ := (mem_matchesOf_iff r1 url y).mp hy
    exact h1 q hq hfn
  have hb2 : ∀ y ∈ matchesOf r2 url, y.1 ≤ (p.length, t).1 := by
    intro y hy
    obtain ⟨q, hq, hfn, rfl⟩ := (mem_matchesOf_iff r2 url y).mp hy
    exact h2 q hq hfn
  unfold match_template
  rw [isortBy_head_firstMax, hsplit, firstMax_append _ _ _ hb1 hb2]
  rfl

theorem c10_witness :
    match_template (tieR1 ++ (tiePat, tieTpl) :: tieR2) tieUrl = some tieTpl :=
  c10_first_declared_wins tieR1 tieR2 tiePat tieTpl tieUrl
    (by decide) (by decide) (by decide)

end Liara
